import Mathlib

/-!
Formal model of the prompt-canvas annotation engine
(`src/ui/prompt-canvas.tsx`): the append-only action log with its
undo/redo discipline, the derived text map, the pointer/tool state
machine, the text-commit path and the screenshot compositor's
fallback structure.  Pointer coordinates are modelled as integers
(`Math.round` on an integer is the identity, so the `Math.round`
calls of the source are omitted on integer inputs).
-/

set_option autoImplicit false

namespace PromptCanvas

/-- A point on the annotation surface (`StrokePoint` in the source). -/
structure Point where
  x : Int
  y : Int
deriving DecidableEq, Repr

/-- The `tool` field of a stroke action (`'pen' | 'erase'`). -/
inductive ToolKind where
  | pen
  | erase
deriving DecidableEq, Repr

/-- The tool selector (`type Tool = 'none' | 'pen' | 'text' | 'erase' | 'box'`). -/
inductive Tool where
  | none
  | pen
  | text
  | erase
  | box
deriving DecidableEq, Repr

/-- One committed freehand stroke (`StrokeAction`). -/
structure StrokeAction where
  tool : ToolKind
  color : String
  width : Int
  points : List Point
deriving DecidableEq, Repr

/-- One committed text block (`TextAddAction`). -/
structure TextAddAction where
  id : Nat
  value : String
  x : Int
  y : Int
  size : Int
  color : String
  w : Int
  h : Int
deriving DecidableEq, Repr

/-- One committed relocation of a text block (`MoveTextAction`);
`from'` and `to'` model the source fields `from` and `to`. -/
structure MoveTextAction where
  id : Nat
  from' : Point
  to' : Point
deriving DecidableEq, Repr

/-- One committed rectangle outline (`RectAction`). -/
structure RectAction where
  x : Int
  y : Int
  w : Int
  h : Int
  color : String
  width : Int
deriving DecidableEq, Repr

/-- A committed annotation action (`type Action`). -/
inductive Action where
  | stroke (s : StrokeAction)
  | text (t : TextAddAction)
  | moveText (m : MoveTextAction)
  | rect (r : RectAction)
deriving DecidableEq, Repr

/-- Draft rectangle (`currentRectRef.current`). -/
structure RectDraft where
  x1 : Int
  y1 : Int
  x2 : Int
  y2 : Int
  color : String
  width : Int
deriving DecidableEq, Repr

/-- In-progress text drag (`draggingTextRef.current`). -/
structure DragText where
  id : Nat
  offsetX : Int
  offsetY : Int
  startX : Int
  startY : Int
  currentX : Int
  currentY : Int
deriving DecidableEq, Repr

/-- The `existing` argument of `commitTextToCanvas`. -/
structure ExistingText where
  id : Nat
  size : Int
  color : String
deriving DecidableEq, Repr

/-- The mutable state of one `PromptCanvas` instance: the refs and the
React state that drive the annotation engine. -/
structure State where
  isVisible : Bool
  isDockOpen : Bool
  activeTool : Tool
  strokeColor : String
  strokeWidth : Int
  textSize : Int
  history : List Action
  redo : List Action
  isDrawing : Bool
  currentStroke : Option StrokeAction
  currentRect : Option RectDraft
  draggingText : Option DragText
  didDrag : Bool
  nextTextId : Nat
  isHoveringText : Bool
  isDraggingText : Bool
  editingText : Option TextAddAction
  textBoxPos : Point
  textBoxValue : String
  textCommitGuard : Bool
  isTextBoxVisible : Bool
deriving DecidableEq, Repr

/-! ## Action log and history controller -/

/-- Append a committed action: the
`historyRef.current.push(action); redoRef.current = []` pattern that
every commit site of the source uses. -/
def appendAction (s : State) (a : Action) : State :=
  { s with history := s.history ++ [a], redo := [] }

/-- Append a whole sequence of actions in order. -/
def appendAll (s : State) (as : List Action) : State :=
  as.foldl appendAction s

/-- The `undo` handler: no-op when `committed` is empty, otherwise pop
the last committed action and push it onto the redo stack. -/
def undo (s : State) : State :=
  match s.history.getLast? with
  | Option.none => s
  | some a => { s with history := s.history.dropLast, redo := s.redo ++ [a] }

/-- The `redo` handler: no-op when the redo stack is empty, otherwise
pop the most recently pushed undone action and append it back to
`committed`. -/
def redo (s : State) : State :=
  match s.redo.getLast? with
  | Option.none => s
  | some a => { s with history := s.history ++ [a], redo := s.redo.dropLast }

/-- Iterated `undo`. -/
def undoN : Nat → State → State
  | 0, s => s
  | n + 1, s => undoN n (undo s)

/-- Iterated `redo`. -/
def redoN : Nat → State → State
  | 0, s => s
  | n + 1, s => redoN n (redo s)

/-- A state with empty history and redo and all drafts cleared; used as
the freshly mounted instance in concrete scenarios. -/
def initState : State where
  isVisible := true
  isDockOpen := true
  activeTool := Tool.none
  strokeColor := "#ff2d55"
  strokeWidth := 3
  textSize := 16
  history := []
  redo := []
  isDrawing := false
  currentStroke := Option.none
  currentRect := Option.none
  draggingText := Option.none
  didDrag := false
  nextTextId := 1
  isHoveringText := false
  isDraggingText := false
  editingText := Option.none
  textBoxPos := ⟨0, 0⟩
  textBoxValue := ""
  textCommitGuard := false
  isTextBoxVisible := false

lemma appendAll_history (s : State) (as : List Action) :
    (appendAll s as).history = s.history ++ as := by
  induction as generalizing s with
  | nil => simp [appendAll]
  | cons a as ih =>
      simp only [appendAll, List.foldl_cons] at *
      rw [ih (appendAction s a)]
      simp [appendAction]

lemma appendAll_redo (s : State) (as : List Action) (h : s.redo = []) :
    (appendAll s as).redo = [] := by
  induction as generalizing s with
  | nil => simpa [appendAll]
  | cons a as ih =>
      simp only [appendAll, List.foldl_cons] at *
      exact ih (appendAction s a) rfl

lemma undoN_spec (l : List Action) : ∀ (c : List Action) (s : State),
    s.history = c ++ l →
    (undoN l.length s).history = c ∧
      (undoN l.length s).redo = s.redo ++ l.reverse := by
  induction l using List.reverseRecOn with
  | nil => intro c s hh; simp [undoN, hh]
  | append_singleton l a ih =>
      intro c s hh
      have hlen : (l ++ [a]).length = l.length + 1 := by simp
      rw [hlen]
      have hundo : undo s =
          { s with history := c ++ l, redo := s.redo ++ [a] } := by
        have h1 : s.history.getLast? = some a := by
          rw [hh, ← List.append_assoc]
          exact List.getLast?_concat _
        have h2 : s.history.dropLast = c ++ l := by
          rw [hh, ← List.append_assoc]
          exact List.dropLast_concat
        rw [undo, h1, h2]
      have := ih c { s with history := c ++ l, redo := s.redo ++ [a] } rfl
      simp only [undoN, hundo]
      rcases this with ⟨h3, h4⟩
      refine ⟨h3, ?_⟩
      rw [h4]
      simp

lemma redoN_spec (l : List Action) : ∀ (r : List Action) (s : State),
    s.redo = r ++ l.reverse →
    (redoN l.length s).history = s.history ++ l ∧
      (redoN l.length s).redo = r := by
  induction l with
  | nil =>
      intro r s hr
      refine ⟨by simp [redoN], ?_⟩
      simpa [redoN] using hr
  | cons a l ih =>
      intro r s hr
      have hredo : redo s =
          { s with history := s.history ++ [a], redo := r ++ l.reverse } := by
        have h1 : s.redo.getLast? = some a := by
          rw [hr]
          simp only [List.reverse_cons, ← List.append_assoc]
          exact List.getLast?_concat _
        have h2 : s.redo.dropLast = r ++ l.reverse := by
          rw [hr]
          simp only [List.reverse_cons, ← List.append_assoc]
          exact List.dropLast_concat
        rw [redo, h1, h2]
      have := ih r { s with history := s.history ++ [a], redo := r ++ l.reverse } rfl
      simp only [List.length_cons, redoN, hredo]
      rcases this with ⟨h3, h4⟩
      refine ⟨?_, h4⟩
      rw [h3]
      simp

/-- C1: starting from an empty history, after appending the sequence
`as` via `append`, `n = as.length` consecutive `undo()` calls leave
`committed` empty with `redo = as.reverse` (most recently undone
first), and `n` further `redo()` calls restore `committed` to exactly
`as` with `redo` empty again. -/
theorem undo_redo_roundtrip (as : List Action) :
    (undoN as.length (appendAll initState as)).history = [] ∧
      (undoN as.length (appendAll initState as)).redo = as.reverse ∧
      (redoN as.length (undoN as.length (appendAll initState as))).history = as ∧
      (redoN as.length (undoN as.length (appendAll initState as))).redo = [] := by
  have hh : (appendAll initState as).history = [] ++ as := by
    simpa using appendAll_history initState as
  have hr : (appendAll initState as).redo = [] := appendAll_redo initState as rfl
  obtain ⟨h1, h2⟩ := undoN_spec as [] (appendAll initState as) hh
  rw [hr] at h2
  simp only [List.nil_append] at h2
  obtain ⟨h3, h4⟩ := redoN_spec as [] (undoN as.length (appendAll initState as))
    (by rw [h2]; simp)
  refine ⟨h1, h2, ?_, h4⟩
  rw [h3, h1]
  simp

/-! ## Derived text map (`computeFinalTextMap`) -/

/-- Insertion-ordered map lookup (JS `Map.prototype.get`). -/
def mapGet : List (Nat × TextAddAction) → Nat → Option TextAddAction
  | [], _ => Option.none
  | (k, v) :: rest, i => if k = i then some v else mapGet rest i

/-- Insertion-ordered map update (JS `Map.prototype.set`): replace the
value in place when the key is present, otherwise append at the end. -/
def mapSet : List (Nat × TextAddAction) → Nat → TextAddAction → List (Nat × TextAddAction)
  | [], k, v => [(k, v)]
  | (k', v') :: rest, k, v =>
      if k' = k then (k, v) :: rest else (k', v') :: mapSet rest k v

/-- One step of the fold in `computeFinalTextMap`: a `text` action
(re)binds its id to a copy of itself; a `moveText` action updates the
position of an existing entry and is ignored when its id is absent. -/
def textMapStep (m : List (Nat × TextAddAction)) (a : Action) : List (Nat × TextAddAction) :=
  match a with
  | Action.text t => mapSet m t.id t
  | Action.moveText mv =>
      match mapGet m mv.id with
      | some ex => mapSet m mv.id { ex with x := mv.to'.x, y := mv.to'.y }
      | Option.none => m
  | _ => m

/-- The `computeFinalTextMap` function: fold the committed log into an
insertion-ordered id-keyed map, then override the position of the
block targeted by an in-progress text drag, if any. -/
def computeFinalTextMap (history : List Action) (drag : Option DragText) :
    List (Nat × TextAddAction) :=
  let m := history.foldl textMapStep []
  match drag with
  | some d =>
      match mapGet m d.id with
      | some ex => mapSet m d.id { ex with x := d.currentX, y := d.currentY }
      | Option.none => m
  | Option.none => m

/-- Modelled from the spec's description of derived text state: does an
action match a given text-block id? -/
def matchesId (i : Nat) : Action → Bool
  | Action.text t => t.id = i
  | Action.moveText m => m.id = i
  | _ => false

/-- Modelled from the spec's description of derived text state: one
step of the per-id fold — the latest `TextAdd` supplies
content/size/color (and resets position), the latest `TextMove.to`
overrides position, and a `TextMove` with no preceding `TextAdd` has
no effect. -/
def textFoldStep (acc : Option TextAddAction) (a : Action) : Option TextAddAction :=
  match a with
  | Action.text t => some t
  | Action.moveText mv => acc.map fun ex => { ex with x := mv.to'.x, y := mv.to'.y }
  | _ => acc

/-- Modelled from the spec's description of derived text state: the
derived state of the block with id `i` is the in-order fold of all
`TextAdd`/`TextMove` actions in the log matching `i`. -/
def derivedTextSpec (log : List Action) (i : Nat) : Option TextAddAction :=
  (log.filter (matchesId i)).foldl textFoldStep Option.none

lemma mapGet_set_self (m : List (Nat × TextAddAction)) (k : Nat) (v : TextAddAction) :
    mapGet (mapSet m k v) k = some v := by
  induction m with
  | nil => simp [mapGet, mapSet]
  | cons kv rest ih =>
      obtain ⟨k', v'⟩ := kv
      by_cases h : k' = k
      · simp [mapSet, h, mapGet]
      · simp [mapSet, h, mapGet, ih]

lemma mapGet_set_ne (m : List (Nat × TextAddAction)) (k i : Nat) (v : TextAddAction)
    (h : i ≠ k) : mapGet (mapSet m k v) i = mapGet m i := by
  induction m with
  | nil =>
      simp only [mapSet, mapGet]
      rw [if_neg fun hh => h hh.symm]
  | cons kv rest ih =>
      obtain ⟨k', v'⟩ := kv
      by_cases hk : k' = k
      · subst hk
        simp only [mapSet, if_pos rfl, mapGet]
        rw [if_neg fun hh => h hh.symm, if_neg fun hh => h hh.symm]
      · simp only [mapSet, if_neg hk, mapGet]
        by_cases hi : k' = i
        · rw [if_pos hi, if_pos hi]
        · rw [if_neg hi, if_neg hi]
          exact ih

lemma mapGet_textMapFold (log : List Action) :
    ∀ (m : List (Nat × TextAddAction)) (i : Nat),
      mapGet (log.foldl textMapStep m) i =
        (log.filter (matchesId i)).foldl textFoldStep (mapGet m i) := by
  induction log with
  | nil => intro m i; simp
  | cons a log ih =>
      intro m i
      rw [List.foldl_cons]
      cases a with
      | stroke s =>
          rw [ih]
          simp [textMapStep, matchesId]
      | rect r =>
          rw [ih]
          simp [textMapStep, matchesId]
      | text t =>
          by_cases h : t.id = i
          · subst h
            rw [ih]
            simp [textMapStep, matchesId, mapGet_set_self, textFoldStep]
          · rw [ih]
            simp [textMapStep, matchesId, h,
              mapGet_set_ne _ _ _ _ fun hh => h hh.symm]
      | moveText mv =>
          by_cases h : mv.id = i
          · subst h
            rw [ih]
            cases hg : mapGet m mv.id with
            | none =>
                simp [textMapStep, matchesId, hg, textFoldStep]
            | some ex =>
                simp [textMapStep, matchesId, hg, textFoldStep, mapGet_set_self]
          · rw [ih]
            cases hg : mapGet m mv.id with
            | none => simp [textMapStep, matchesId, h, hg]
            | some ex =>
                simp [textMapStep, matchesId, h, hg,
                  mapGet_set_ne _ _ _ _ fun hh => h hh.symm]

/-- C3: for every committed log (with no in-progress drag), the derived
state of the text block with id `i` — as computed by
`computeFinalTextMap` — equals the in-order fold of all
`TextAdd`/`TextMove` actions in the log matching `i` (latest `TextAdd`
supplies content/size/color, latest `TextMove.to'` overrides position,
a `TextMove` with no preceding `TextAdd` has no effect); in particular
after `TextAdd{id := 1}` then `TextMove{id := 1, to := (10, 20)}` the
derived position of id 1 is `(10, 20)`. -/
theorem derived_text_state_is_fold :
    (∀ (log : List Action) (i : Nat),
        mapGet (computeFinalTextMap log Option.none) i = derivedTextSpec log i) ∧
      (mapGet
          (computeFinalTextMap
            [Action.text ⟨1, "a", 0, 0, 16, "#ff2d55", 30, 21⟩,
              Action.moveText ⟨1, ⟨0, 0⟩, ⟨10, 20⟩⟩]
            Option.none)
          1).map (fun t => (t.x, t.y)) = some (10, 20) := by
  constructor
  · intro log i
    rw [computeFinalTextMap, derivedTextSpec]
    simpa using mapGet_textMapFold log [] i
  · rfl

/-! ## Pointer/tool state machine -/

/-- The `isPointInText` predicate: inclusive axis-aligned containment. -/
def isPointInText (x y : Int) (t : TextAddAction) : Bool :=
  decide (t.x ≤ x) && decide (x ≤ t.x + t.w) && decide (t.y ≤ y) && decide (y ≤ t.y + t.h)

/-- The derived text blocks in iteration order
(`Array.from(computeFinalTextMap().values())`). -/
def textsOf (s : State) : List TextAddAction :=
  (computeFinalTextMap s.history s.draggingText).map Prod.snd

/-- The hit-test loop `for (let i = texts.length - 1; i >= 0; i--)`:
scan the derived text blocks topmost (last in iteration order) first
and return the first hit. -/
def findTopmostHit (texts : List TextAddAction) (x y : Int) : Option TextAddAction :=
  texts.reverse.find? (isPointInText x y)

/-- The `handlePointerDown` handler. -/
def handlePointerDown (s : State) (x y : Int) : State :=
  if !s.isVisible then s
  else if !s.isDockOpen || s.activeTool = Tool.none then s
  else
    match findTopmostHit (textsOf s) x y with
    | some t =>
        { s with
          draggingText := some ⟨t.id, x - t.x, y - t.y, t.x, t.y, t.x, t.y⟩,
          didDrag := false,
          isDraggingText := true,
          isHoveringText := true }
    | Option.none =>
        match s.activeTool with
        | Tool.text => { s with isHoveringText := false }
        | Tool.box =>
            { s with
              isHoveringText := false,
              currentRect := some ⟨x, y, x, y, s.strokeColor, s.strokeWidth⟩ }
        | _ =>
            { s with
              isDrawing := true,
              isHoveringText := false,
              currentStroke := some
                ⟨if s.activeTool = Tool.erase then ToolKind.erase else ToolKind.pen,
                  s.strokeColor, s.strokeWidth, [⟨x, y⟩]⟩ }

/-- The `handlePointerMove` handler. -/
def handlePointerMove (s : State) (x y : Int) : State :=
  if !s.isVisible then s
  else if !s.isDockOpen || s.activeTool = Tool.none then s
  else
    match s.draggingText with
    | some d =>
        { s with
          draggingText := some { d with currentX := x - d.offsetX, currentY := y - d.offsetY },
          didDrag := true }
    | Option.none =>
        match s.currentRect, s.activeTool with
        | some r, Tool.box => { s with currentRect := some { r with x2 := x, y2 := y } }
        | _, _ =>
            let over := (findTopmostHit (textsOf s) x y).isSome
            let s' := { s with isHoveringText := over }
            if s'.isDrawing then
              match s'.currentStroke with
              | some st => { s' with currentStroke := some { st with points := st.points ++ [⟨x, y⟩] } }
              | Option.none => s'
            else s'

/-- The `handlePointerUp` handler. -/
def handlePointerUp (s : State) : State :=
  match s.draggingText with
  | some d =>
      let s' :=
        if d.startX ≠ d.currentX ∨ d.startY ≠ d.currentY then
          { s with
            history := s.history ++
              [Action.moveText ⟨d.id, ⟨d.startX, d.startY⟩, ⟨d.currentX, d.currentY⟩⟩],
            redo := [] }
        else s
      { s' with draggingText := Option.none, isDraggingText := false }
  | Option.none =>
      match s.currentRect, s.activeTool with
      | some r, Tool.box =>
          let rx := min r.x1 r.x2
          let ry := min r.y1 r.y2
          let rw := |r.x2 - r.x1|
          let rh := |r.y2 - r.y1|
          let s' :=
            if 0 < rw ∧ 0 < rh then
              { s with
                history := s.history ++ [Action.rect ⟨rx, ry, rw, rh, r.color, r.width⟩],
                redo := [] }
            else s
          { s' with currentRect := Option.none }
      | _, _ =>
          if s.isDrawing then
            match s.currentStroke with
            | some st =>
                let s' :=
                  if 1 < st.points.length then
                    { s with history := s.history ++ [Action.stroke st], redo := [] }
                  else s
                { s' with isDrawing := false, currentStroke := Option.none }
            | Option.none => s
          else s

/-- A pointer event fed to the state machine. -/
inductive PEvent where
  | down (x y : Int)
  | move (x y : Int)
  | up
deriving DecidableEq, Repr

/-- Dispatch one pointer event. -/
def step (s : State) : PEvent → State
  | PEvent.down x y => handlePointerDown s x y
  | PEvent.move x y => handlePointerMove s x y
  | PEvent.up => handlePointerUp s

/-- Run a sequence of pointer events. -/
def run (s : State) (evs : List PEvent) : State :=
  evs.foldl step s

/-! ## Text editing subsystem -/

/-- JS `String.prototype.trim` (restricted to ASCII whitespace): strip
leading and trailing whitespace characters.  The source's guard
`if (!value.trim()) return` tests this result against the empty
string. -/
def jsTrim (s : String) : String :=
  ⟨((s.data.dropWhile Char.isWhitespace).reverse.dropWhile Char.isWhitespace).reverse⟩

/-- The `commitTextToCanvas` function.  `meas` models the
DOM-dependent `measureTextBlock` (canvas text metrics), returning
`(width, height)`. -/
def commitTextToCanvas (meas : String → Int → Int × Int) (value : String)
    (position : Point) (existing : Option ExistingText) (s : State) : State :=
  if jsTrim value = "" then s
  else
    let sizeToUse := match existing with | some e => e.size | Option.none => s.textSize
    let colorToUse := match existing with | some e => e.color | Option.none => s.strokeColor
    let measured := meas value sizeToUse
    let newId := match existing with | some e => e.id | Option.none => s.nextTextId
    let nextId := match existing with | some _ => s.nextTextId | Option.none => s.nextTextId + 1
    { s with
      history := s.history ++
        [Action.text ⟨newId, value, position.x, position.y, sizeToUse, colorToUse,
          measured.1, measured.2⟩],
      redo := [],
      nextTextId := nextId }

/-- The `onDblClick` handler: hit-test the derived text blocks topmost
first and open the editor on the hit block, pre-filled with its
current value and anchored at its current position. -/
def onDblClick (s : State) (x y : Int) : State :=
  if !(s.isDockOpen && s.isVisible) then s
  else
    match findTopmostHit (textsOf s) x y with
    | some t =>
        { s with
          editingText := some t,
          textBoxPos := ⟨t.x, t.y⟩,
          textBoxValue := t.value,
          textCommitGuard := false,
          isTextBoxVisible := true }
    | Option.none => s

/-- The textarea `onBlur` handler: guarded single commit, then close
the text box and clear the editing session. -/
def textBoxBlur (meas : String → Int → Int × Int) (s : State) : State :=
  if s.textCommitGuard then s
  else
    let s₁ := { s with textCommitGuard := true }
    let s₂ :=
      match s₁.editingText with
      | some ed =>
          commitTextToCanvas meas s₁.textBoxValue ⟨ed.x, ed.y⟩
            (some ⟨ed.id, ed.size, ed.color⟩) s₁
      | Option.none =>
          commitTextToCanvas meas s₁.textBoxValue ⟨s₁.textBoxPos.x, s₁.textBoxPos.y⟩
            Option.none s₁
    { s₂ with
      isTextBoxVisible := false,
      textBoxValue := "",
      editingText := Option.none,
      textCommitGuard := false }

/-- C7: on pointer-up ending a text drag, a `TextMove` is appended iff
the anchor moved by a nonzero delta; a click-without-drag (or a drag
returning exactly to the start) appends nothing, and the drag state is
cleared in every case. -/
theorem textmove_append_iff_moved (s : State) (d : DragText)
    (h : s.draggingText = some d) :
    ((d.startX ≠ d.currentX ∨ d.startY ≠ d.currentY) →
        handlePointerUp s =
          { s with
            history := s.history ++
              [Action.moveText ⟨d.id, ⟨d.startX, d.startY⟩, ⟨d.currentX, d.currentY⟩⟩],
            redo := [],
            draggingText := Option.none,
            isDraggingText := false }) ∧
      (¬(d.startX ≠ d.currentX ∨ d.startY ≠ d.currentY) →
        handlePointerUp s = { s with draggingText := Option.none, isDraggingText := false }) := by
  constructor
  · intro hm
    unfold handlePointerUp
    rw [h]
    simp only [if_pos hm]
  · intro hm
    unfold handlePointerUp
    rw [h]
    simp only [if_neg hm]

/-- Closed witness for `textmove_append_iff_moved`: a concrete drag of
block 1 from `(0, 0)` to `(7, 9)` commits exactly that `TextMove`. -/
theorem textmove_append_iff_moved_witness :
    handlePointerUp
        { initState with draggingText := some ⟨1, 2, 3, 0, 0, 7, 9⟩ } =
      { initState with
        history := [Action.moveText ⟨1, ⟨0, 0⟩, ⟨7, 9⟩⟩],
        redo := [],
        draggingText := Option.none,
        isDraggingText := false } := by
  have := (textmove_append_iff_moved
    { initState with draggingText := some ⟨1, 2, 3, 0, 0, 7, 9⟩ } ⟨1, 2, 3, 0, 0, 7, 9⟩ rfl).1
    (by decide)
  simpa [initState] using this

/-- C5: on pointer-up of a rectangle drag, a `RectOutline` is appended
iff the normalized width and height are both strictly positive, with
`x = min x1 x2`, `y = min y1 y2`, `w = |x2 - x1|`, `h = |y2 - y1|`
regardless of drag direction; and the concrete drag `(5,5) → (25,15)`
with the box tool appends exactly `RectOutline{x:5, y:5, w:20, h:10}`. -/
theorem rect_commit_normalized :
    (∀ (s : State) (r : RectDraft),
        s.draggingText = Option.none → s.currentRect = some r →
        s.activeTool = Tool.box →
        ((0 < |r.x2 - r.x1| ∧ 0 < |r.y2 - r.y1|) →
            handlePointerUp s =
              { s with
                history := s.history ++
                  [Action.rect ⟨min r.x1 r.x2, min r.y1 r.y2,
                    |r.x2 - r.x1|, |r.y2 - r.y1|, r.color, r.width⟩],
                redo := [],
                currentRect := Option.none }) ∧
          (¬(0 < |r.x2 - r.x1| ∧ 0 < |r.y2 - r.y1|) →
            handlePointerUp s = { s with currentRect := Option.none })) ∧
      (run { initState with activeTool := Tool.box }
          [PEvent.down 5 5, PEvent.move 25 15, PEvent.up]).history =
        [Action.rect ⟨5, 5, 20, 10, "#ff2d55", 3⟩] := by
  constructor
  · intro s r hd hr ht
    constructor
    · intro hw
      unfold handlePointerUp
      rw [hd, hr, ht]
      simp only [if_pos hw]
    · intro hw
      unfold handlePointerUp
      rw [hd, hr, ht]
      simp only [if_neg hw]
      simp [hd, ht]
  · decide

/-- Closed witness for `rect_commit_normalized`: a backwards drag draft
from `(25, 15)` to `(5, 5)` commits the same normalized rectangle. -/
theorem rect_commit_normalized_witness :
    handlePointerUp
        { initState with
          activeTool := Tool.box,
          currentRect := some ⟨25, 15, 5, 5, "#ff2d55", 3⟩ } =
      { initState with
        activeTool := Tool.box,
        history := [Action.rect ⟨5, 5, 20, 10, "#ff2d55", 3⟩],
        redo := [],
        currentRect := Option.none } := by
  have := ((rect_commit_normalized.1
    { initState with
      activeTool := Tool.box,
      currentRect := some ⟨25, 15, 5, 5, "#ff2d55", 3⟩ }
    ⟨25, 15, 5, 5, "#ff2d55", 3⟩ rfl rfl rfl).1 (by decide))
  simpa [initState] using this

lemma handlePointerUp_history_or_redo (s : State) :
    (handlePointerUp s).history = s.history ∨ (handlePointerUp s).redo = [] := by
  rcases hd : s.draggingText with _ | d
  · rcases hr : s.currentRect with _ | r <;>
      cases ht : s.activeTool <;>
      cases hdr : s.isDrawing <;>
      rcases hs : s.currentStroke with _ | st <;>
      simp only [handlePointerUp, hd, hr, ht, hdr, hs] <;>
      (repeat' split) <;> simp_all
  · simp only [handlePointerUp, hd]
    split <;> simp

lemma commitText_history_or_redo (meas : String → Int → Int × Int) (value : String)
    (position : Point) (existing : Option ExistingText) (s : State) :
    (commitTextToCanvas meas value position existing s).history = s.history ∨
      (commitTextToCanvas meas value position existing s).redo = [] := by
  unfold commitTextToCanvas
  by_cases ht : jsTrim value = ""
  · left; simp [if_pos ht]
  · right; simp [if_neg ht]

/-- C2: every committed append empties the redo stack — if pointer-up
(stroke, rect or text-move commit) or a text commit changes the
history at all, the resulting redo stack is empty, for every prior
history and redo state; whereas `redo()` only pops the single action
it re-appends, never clearing the rest of the redo stack. -/
theorem append_clears_redo :
    (∀ s : State, (handlePointerUp s).history ≠ s.history → (handlePointerUp s).redo = []) ∧
      (∀ (meas : String → Int → Int × Int) (value : String) (position : Point)
          (existing : Option ExistingText) (s : State),
        (commitTextToCanvas meas value position existing s).history ≠ s.history →
        (commitTextToCanvas meas value position existing s).redo = []) ∧
      (∀ (s : State) (r : List Action) (a : Action),
        s.redo = r ++ [a] →
        redo s = { s with history := s.history ++ [a], redo := r }) := by
  refine ⟨?_, ?_, ?_⟩
  · intro s h
    rcases handlePointerUp_history_or_redo s with h' | h'
    · exact absurd h' h
    · exact h'
  · intro meas value position existing s h
    rcases commitText_history_or_redo meas value position existing s with h' | h'
    · exact absurd h' h
    · exact h'
  · intro s r a h
    unfold redo
    rw [h]
    rw [List.getLast?_concat, List.dropLast_concat]

/-- Closed witness for `append_clears_redo`: committing a rectangle on
a state with a non-empty redo stack empties it, and `redo()` on a
two-element redo stack pops exactly one action. -/
theorem append_clears_redo_witness :
    (handlePointerUp
        { initState with
          activeTool := Tool.box,
          redo := [Action.rect ⟨0, 0, 1, 1, "#ff2d55", 3⟩],
          currentRect := some ⟨0, 0, 5, 5, "#ff2d55", 3⟩ }).redo = [] ∧
      redo
          { initState with
            redo := [Action.rect ⟨0, 0, 1, 1, "#ff2d55", 3⟩,
              Action.rect ⟨2, 2, 3, 3, "#ff2d55", 3⟩] } =
        { initState with
          history := [Action.rect ⟨2, 2, 3, 3, "#ff2d55", 3⟩],
          redo := [Action.rect ⟨0, 0, 1, 1, "#ff2d55", 3⟩] } := by
  constructor
  · exact append_clears_redo.1
      { initState with
        activeTool := Tool.box,
        redo := [Action.rect ⟨0, 0, 1, 1, "#ff2d55", 3⟩],
        currentRect := some ⟨0, 0, 5, 5, "#ff2d55", 3⟩ }
      (by decide)
  · have := append_clears_redo.2.2
      { initState with
        redo := [Action.rect ⟨0, 0, 1, 1, "#ff2d55", 3⟩,
          Action.rect ⟨2, 2, 3, 3, "#ff2d55", 3⟩] }
      [Action.rect ⟨0, 0, 1, 1, "#ff2d55", 3⟩]
      (Action.rect ⟨2, 2, 3, 3, "#ff2d55", 3⟩) rfl
    simpa [initState] using this

lemma handlePointerDown_history (s : State) (x y : Int) :
    (handlePointerDown s x y).history = s.history := by
  unfold handlePointerDown
  (repeat' split) <;> rfl

lemma handlePointerMove_history (s : State) (x y : Int) :
    (handlePointerMove s x y).history = s.history := by
  unfold handlePointerMove
  dsimp only
  (repeat' split) <;> rfl

lemma handlePointerUp_history_cases (s : State) :
    (handlePointerUp s).history = s.history ∨
      (∃ m : MoveTextAction, (handlePointerUp s).history = s.history ++ [Action.moveText m]) ∨
      (∃ r : RectAction, (handlePointerUp s).history = s.history ++ [Action.rect r]) ∨
      (∃ st : StrokeAction, 1 < st.points.length ∧
        (handlePointerUp s).history = s.history ++ [Action.stroke st]) := by
  rcases hd : s.draggingText with _ | d
  · rcases hr : s.currentRect with _ | r <;>
      cases ht : s.activeTool <;>
      cases hdr : s.isDrawing <;>
      rcases hs : s.currentStroke with _ | st <;>
      simp only [handlePointerUp, hd, hr, ht, hdr, hs] <;>
      (repeat' split) <;>
      first
        | (right; right; right; exact ⟨st, by assumption, by simp⟩)
        | (right; right; left; exact ⟨_, by simp⟩)
        | (left; rfl)
        | simp_all
  · simp only [handlePointerUp, hd]
    split
    · right; left
      exact ⟨⟨d.id, ⟨d.startX, d.startY⟩, ⟨d.currentX, d.currentY⟩⟩, by simp⟩
    · left; rfl

lemma step_strokes (s : State) (e : PEvent)
    (h : ∀ st : StrokeAction, Action.stroke st ∈ s.history → 2 ≤ st.points.length) :
    ∀ st : StrokeAction, Action.stroke st ∈ (step s e).history → 2 ≤ st.points.length := by
  cases e with
  | down x y =>
      intro st hm
      rw [step, handlePointerDown_history] at hm
      exact h st hm
  | move x y =>
      intro st hm
      rw [step, handlePointerMove_history] at hm
      exact h st hm
  | up =>
      intro st hm
      rw [step] at hm
      rcases handlePointerUp_history_cases s with hc | ⟨m, hc⟩ | ⟨r, hc⟩ | ⟨st', hl, hc⟩ <;>
        rw [hc] at hm
      · exact h st hm
      · simp only [List.mem_append, List.mem_singleton] at hm
        rcases hm with hm | hm
        · exact h st hm
        · cases hm
      · simp only [List.mem_append, List.mem_singleton] at hm
        rcases hm with hm | hm
        · exact h st hm
        · cases hm
      · simp only [List.mem_append, List.mem_singleton] at hm
        rcases hm with hm | hm
        · exact h st hm
        · cases hm
          omega

lemma run_strokes (evs : List PEvent) : ∀ s : State,
    (∀ st : StrokeAction, Action.stroke st ∈ s.history → 2 ≤ st.points.length) →
    ∀ st : StrokeAction, Action.stroke st ∈ (run s evs).history → 2 ≤ st.points.length := by
  induction evs with
  | nil => intro s h; simpa [run] using h
  | cons e evs ih =>
      intro s h
      simp only [run, List.foldl_cons]
      exact ih (step s e) (step_strokes s e h)

/-- C4: every stroke committed to the log through the pointer state
machine has at least 2 points (an invariant preserved by every pointer
event sequence), and a pointer-down immediately followed by pointer-up
with no intervening pointer-move appends nothing to the log. -/
theorem committed_strokes_have_two_points :
    (∀ (s : State) (evs : List PEvent),
        (∀ st : StrokeAction, Action.stroke st ∈ s.history → 2 ≤ st.points.length) →
        ∀ st : StrokeAction, Action.stroke st ∈ (run s evs).history → 2 ≤ st.points.length) ∧
      (∀ (s : State) (x y : Int),
        s.draggingText = Option.none → s.currentRect = Option.none →
        s.currentStroke = Option.none → s.isDrawing = false →
        (run s [PEvent.down x y, PEvent.up]).history = s.history) := by
  constructor
  · intro s evs h
    exact run_strokes evs s h
  · intro s x y hd hr hs hdr
    cases hv : s.isVisible <;> cases ho : s.isDockOpen <;> cases hto : s.activeTool <;>
      rcases hh : findTopmostHit (textsOf s) x y with _ | t <;>
      simp [run, step, handlePointerDown, handlePointerUp, hv, ho, hto, hh, hd, hr, hs, hdr]

/-- Closed witness for `committed_strokes_have_two_points`: from the
freshly mounted state with the pen tool, a down/up pair with no move
leaves the log empty, and the stroke invariant holds for a concrete
drag producing a three-point stroke. -/
theorem committed_strokes_have_two_points_witness :
    (run { initState with activeTool := Tool.pen } [PEvent.down 0 0, PEvent.up]).history = [] ∧
      ∀ st : StrokeAction,
        Action.stroke st ∈
          (run { initState with activeTool := Tool.pen }
            [PEvent.down 0 0, PEvent.move 10 0, PEvent.move 10 10, PEvent.up]).history →
        2 ≤ st.points.length := by
  constructor
  · exact committed_strokes_have_two_points.2
      { initState with activeTool := Tool.pen } 0 0 rfl rfl rfl rfl
  · exact committed_strokes_have_two_points.1
      { initState with activeTool := Tool.pen }
      [PEvent.down 0 0, PEvent.move 10 0, PEvent.move 10 10, PEvent.up]
      (by intro st hm; simp [initState] at hm)

/-- A text block covering `[0,10] × [0,10]`, used in the pointer-down
hit-test scenarios. -/
def c6Block : TextAddAction := ⟨1, "hi", 0, 0, 16, "#ff2d55", 10, 10⟩

/-- A state whose log holds `c6Block` and whose tool selector is
`none`, with the overlay visible and the dock open. -/
def c6State : State :=
  { initState with activeTool := Tool.none, history := [Action.text c6Block] }

/-- Counterexample to C6 as stated: with the overlay visible, the dock
open and the tool selector at `none`, a pointer-down at `(5, 5)` —
inside the derived text block — does not enter `draggingText`: the
handler returns the state unchanged, because pointer-down is ignored
entirely when the selected tool is `none`. -/
theorem pointerdown_ignored_when_tool_none :
    isPointInText 5 5 c6Block = true ∧
      findTopmostHit (textsOf c6State) 5 5 = some c6Block ∧
      handlePointerDown c6State 5 5 = c6State ∧
      (handlePointerDown c6State 5 5).draggingText = Option.none := by
  decide

/-- C6 (amended): on every pointer-down processed while the overlay is
visible, the tool dock is open and the selected tool is not `none`
(with tool `none` the pointer-down is ignored entirely), the derived
text blocks are hit-tested topmost (most recently defined in iteration
order) first using inclusive axis-aligned containment, and on a hit
the machine enters `draggingText` capturing the block's id and the
pointer's offset from its anchor, pre-empting the behavior of the
selected tool (pen, erase, text or box). -/
theorem textdrag_preempts_tools :
    (∀ (s : State) (x y : Int) (t : TextAddAction),
        s.isVisible = true → s.isDockOpen = true → s.activeTool ≠ Tool.none →
        findTopmostHit (textsOf s) x y = some t →
        handlePointerDown s x y =
          { s with
            draggingText := some ⟨t.id, x - t.x, y - t.y, t.x, t.y, t.x, t.y⟩,
            didDrag := false,
            isDraggingText := true,
            isHoveringText := true }) ∧
      (∀ (x y : Int) (t : TextAddAction),
        isPointInText x y t = true ↔
          t.x ≤ x ∧ x ≤ t.x + t.w ∧ t.y ≤ y ∧ y ≤ t.y + t.h) := by
  constructor
  · intro s x y t hv ho hn h4
    simp [handlePointerDown, hv, ho, hn, h4]
  · intro x y t
    simp [isPointInText, and_assoc]

/-- Closed witness for `textdrag_preempts_tools`: with the pen tool
selected, pointer-down at `(5, 5)` on the block grabs it with the
captured offset. -/
theorem textdrag_preempts_tools_witness :
    handlePointerDown
        { initState with activeTool := Tool.pen, history := [Action.text c6Block] } 5 5 =
      { initState with
        activeTool := Tool.pen,
        history := [Action.text c6Block],
        draggingText := some ⟨1, 5, 5, 0, 0, 0, 0⟩,
        didDrag := false,
        isDraggingText := true,
        isHoveringText := true } := by
  have := textdrag_preempts_tools.1
    { initState with activeTool := Tool.pen, history := [Action.text c6Block] }
    5 5 c6Block rfl rfl (by decide) (by decide)
  simpa [c6Block, initState] using this

lemma commitText_trim_empty (meas : String → Int → Int × Int) (value : String)
    (position : Point) (existing : Option ExistingText) (s : State)
    (h : jsTrim value = "") :
    commitTextToCanvas meas value position existing s = s := by
  unfold commitTextToCanvas
  rw [if_pos h]

/-- C8: committing a value that is empty or all whitespace appends
nothing — `commitTextToCanvas` returns the state unchanged, and the
blur-commit of a text-editing session (create path when no block is
being edited, edit-in-place path otherwise) leaves both the history
and the redo stack unchanged. -/
theorem whitespace_commit_is_noop :
    (∀ (meas : String → Int → Int × Int) (value : String) (position : Point)
        (existing : Option ExistingText) (s : State),
      jsTrim value = "" → commitTextToCanvas meas value position existing s = s) ∧
      (∀ (meas : String → Int → Int × Int) (s : State),
        jsTrim s.textBoxValue = "" →
        (textBoxBlur meas s).history = s.history ∧ (textBoxBlur meas s).redo = s.redo) := by
  constructor
  · intro meas value position existing s h
    exact commitText_trim_empty meas value position existing s h
  · intro meas s h
    unfold textBoxBlur
    by_cases hg : s.textCommitGuard = true
    · rw [if_pos hg]
      exact ⟨rfl, rfl⟩
    · rw [if_neg hg]
      dsimp only
      rcases he : s.editingText with _ | ed <;>
        simp only [he] <;>
        rw [commitText_trim_empty _ _ _ _ _ h] <;>
        exact ⟨rfl, rfl⟩

/-- Closed witness for `whitespace_commit_is_noop`: committing a
whitespace-only value appends nothing, on both paths. -/
theorem whitespace_commit_is_noop_witness :
    commitTextToCanvas (fun _ _ => (0, 0)) " \n\t " ⟨3, 4⟩ Option.none initState = initState ∧
      (textBoxBlur (fun _ _ => (0, 0))
          { initState with textBoxValue := "  ", isTextBoxVisible := true }).history = [] := by
  constructor
  · exact whitespace_commit_is_noop.1 (fun _ _ => (0, 0)) " \n\t " ⟨3, 4⟩ Option.none initState
      (by decide)
  · exact (whitespace_commit_is_noop.2 (fun _ _ => (0, 0))
      { initState with textBoxValue := "  ", isTextBoxVisible := true } (by decide)).1

/-- The log used in the move-then-edit scenario: block 1 added at
`(0, 0)` and then moved to `(10, 20)`. -/
def c10Log : List Action :=
  [Action.text ⟨1, "a", 0, 0, 16, "#ff2d55", 30, 21⟩,
    Action.moveText ⟨1, ⟨0, 0⟩, ⟨10, 20⟩⟩]

/-- C10: committing an edit-in-place session (double-click on a block,
type a new value, blur) appends a `TextAdd` anchored at the block's
current derived position — the hit block `t` comes from the derived
text map, and the appended action carries `t.x, t.y` and inherits
`t.id, t.size, t.color` — not the coordinates stored in the earlier
`TextAdd`; concretely, editing a block that was added at `(0, 0)` and
moved to `(10, 20)` appends the new `TextAdd` at `(10, 20)`. -/
theorem edit_in_place_uses_derived_position :
    (∀ (meas : String → Int → Int × Int) (s : State) (x y : Int)
        (t : TextAddAction) (v : String),
      s.isDockOpen = true → s.isVisible = true →
      findTopmostHit (textsOf s) x y = some t →
      ¬(jsTrim v = "") →
      (textBoxBlur meas { onDblClick s x y with textBoxValue := v }).history =
        s.history ++
          [Action.text ⟨t.id, v, t.x, t.y, t.size, t.color,
            (meas v t.size).1, (meas v t.size).2⟩]) ∧
      (textBoxBlur (fun _ _ => (30, 21))
          { onDblClick { initState with history := c10Log } 12 22 with
            textBoxValue := "hi" }).history =
        c10Log ++ [Action.text ⟨1, "hi", 10, 20, 16, "#ff2d55", 30, 21⟩] := by
  constructor
  · intro meas s x y t v ho hv h4 htrim
    simp [onDblClick, textBoxBlur, commitTextToCanvas, hv, ho, h4, htrim]
  · decide

/-- Closed witness for `edit_in_place_uses_derived_position`: the
move-then-edit scenario, obtained from the universally quantified
part at its concrete inputs. -/
theorem edit_in_place_uses_derived_position_witness :
    (textBoxBlur (fun _ _ => (30, 21))
        { onDblClick { initState with history := c10Log } 12 22 with
          textBoxValue := "hi" }).history =
      { initState with history := c10Log }.history ++
        [Action.text ⟨1, "hi", 10, 20, 16, "#ff2d55", 30, 21⟩] := by
  exact edit_in_place_uses_derived_position.1 (fun _ _ => (30, 21))
    { initState with history := c10Log } 12 22
    ⟨1, "a", 10, 20, 16, "#ff2d55", 30, 21⟩ "hi" rfl rfl (by decide) (by decide)

/-! ## Screenshot compositor (`captureComposite`) -/

/-- The annotation canvas as the compositor sees it: its device-pixel
size and the outcome of `canvas.toDataURL('image/png')` (which can
throw, e.g. on a tainted canvas). -/
structure Canvas where
  width : Nat
  height : Nat
  pngData : Except Unit String
deriving Repr

/-- The environment of one `captureComposite` call: the overlay canvas
(`canvasRef.current`, possibly null), the outcome of the external
page-snapshot provider (`toPng`, which can reject), whether
`out.getContext('2d')` returns a context, whether `bgImg.decode()`
resolves, and the outcome of drawing and serializing the composite
output canvas. -/
structure ExportEnv where
  overlay : Option Canvas
  snapshot : Except Unit String
  ctxOk : Bool
  decodeOk : Bool
  render : String → Canvas → Except Unit String

/-- The successful outcomes of the export pipeline. -/
inductive ExportOutcome where
  | composite (url : String)
  | annotationOnly (url : String)
deriving DecidableEq, Repr

/-- The `try` block of `captureComposite`: snapshot the page, return
null when the output context is unavailable, fail when the background
image does not decode, otherwise draw background and overlay and
serialize.  An `Except.error` result models a thrown exception caught
by the surrounding `catch`. -/
def captureCompositeTry (env : ExportEnv) (ov : Canvas) : Except Unit (Option String) :=
  match env.snapshot with
  | Except.error e => Except.error e
  | Except.ok domUrl =>
      if !env.ctxOk then Except.ok Option.none
      else if !env.decodeOk then Except.error ()
      else
        match env.render domUrl ov with
        | Except.ok url => Except.ok (some url)
        | Except.error e => Except.error e

/-- The `captureComposite` function: null when there is no overlay
canvas; otherwise the composite from the `try` block, falling back on
any exception to the annotation layer alone
(`overlay.toDataURL('image/png')`), and to null when even that
throws. -/
def captureComposite (env : ExportEnv) : Option ExportOutcome :=
  match env.overlay with
  | Option.none => Option.none
  | some ov =>
      match captureCompositeTry env ov with
      | Except.ok (some url) => some (ExportOutcome.composite url)
      | Except.ok Option.none => Option.none
      | Except.error _ =>
          match ov.pngData with
          | Except.ok url => some (ExportOutcome.annotationOnly url)
          | Except.error _ => Option.none

/-- C9: the export operation never propagates an exception — when the
background-snapshot stage fails (the snapshot provider rejects, or the
background image fails to decode), the result is the annotation layer
alone when its serialization succeeds and null when it also fails; and
for every environment the result is null, a composite image, or an
annotation-only image. -/
theorem export_never_throws :
    (∀ (env : ExportEnv) (ov : Canvas),
        env.overlay = some ov → env.snapshot = Except.error () →
        captureComposite env =
          (match ov.pngData with
            | Except.ok url => some (ExportOutcome.annotationOnly url)
            | Except.error _ => Option.none)) ∧
      (∀ (env : ExportEnv) (ov : Canvas) (u : String),
        env.overlay = some ov → env.snapshot = Except.ok u → env.ctxOk = true →
        env.decodeOk = false →
        captureComposite env =
          (match ov.pngData with
            | Except.ok url => some (ExportOutcome.annotationOnly url)
            | Except.error _ => Option.none)) ∧
      (∀ env : ExportEnv,
        captureComposite env = Option.none ∨
          (∃ u, captureComposite env = some (ExportOutcome.composite u)) ∨
          (∃ u, captureComposite env = some (ExportOutcome.annotationOnly u))) := by
  refine ⟨?_, ?_, ?_⟩
  · intro env ov hov hsnap
    simp [captureComposite, captureCompositeTry, hov, hsnap]
  · intro env ov u hov hsnap hctx hdec
    simp [captureComposite, captureCompositeTry, hov, hsnap, hctx, hdec]
  · intro env
    rcases h : captureComposite env with _ | o
    · exact Or.inl rfl
    · cases o with
      | composite u => exact Or.inr (Or.inl ⟨u, rfl⟩)
      | annotationOnly u => exact Or.inr (Or.inr ⟨u, rfl⟩)

/-- Closed witness for `export_never_throws`: a rejecting snapshot
provider still yields the annotation-only image. -/
theorem export_never_throws_witness :
    captureComposite
        ⟨some ⟨800, 600, Except.ok "annot"⟩, Except.error (), true, true,
          fun _ _ => Except.ok "comp"⟩ =
      some (ExportOutcome.annotationOnly "annot") := by
  have := export_never_throws.1
    ⟨some ⟨800, 600, Except.ok "annot"⟩, Except.error (), true, true,
      fun _ _ => Except.ok "comp"⟩
    ⟨800, 600, Except.ok "annot"⟩ rfl rfl
  simpa using this

end PromptCanvas
